import Mathlib

/-!
Verification development for the JPEG 2000 metadata sidecar codec
(`sunpy/io/jp2.py`).  The module's own logic (header to XML translation,
type coercion on read, box-list surgery on write) is embedded shallowly;
the external JPEG 2000 codec and the small repository utilities that are
not part of the provided sources (`string_is_float`, `xml_to_dict`, the
`MetaDict` accessor) are modelled from the specification's contracts, as
noted on each definition.  Machine integers do not occur; Python integers
are `Int`/`Nat`, Python floats are modelled as exact rationals (the spec's
claims concern decimal literals, not binary rounding).
-/

/-- Value of the running decimal accumulator of a digit string, as computed
by Python `int` on a string of ASCII digits (leading zeros allowed). -/
def digitsVal (cs : List Char) : Nat :=
  cs.foldl (fun a c => 10 * a + (c.toNat - 48)) 0

/-- Decimal digits of `n`, most significant first, via repeated division;
the first argument is structural fuel (any fuel above `n` is enough). -/
def natDigitsAux : Nat → Nat → List Char
  | 0, _ => []
  | fuel + 1, n =>
    if n < 10 then [Char.ofNat (48 + n)]
    else natDigitsAux fuel (n / 10) ++ [Char.ofNat (48 + n % 10)]

/-- Decimal representation of a natural number, as Python `str` renders a
nonnegative `int`. -/
def natStr (n : Nat) : String :=
  ⟨natDigitsAux (n + 1) n⟩

/-- Decimal representation of an integer, as Python `str` renders an `int`. -/
def intStr (i : Int) : String :=
  if i < 0 then "-" ++ natStr i.natAbs else natStr i.toNat

/-- Python `str.isdigit` restricted to ASCII: the string is nonempty and
every character is a decimal digit. -/
def pyIsDigit (s : String) : Bool :=
  !s.data.isEmpty && s.data.all Char.isDigit

/-- Split a character list at the first character satisfying `p`, returning
the parts before and after it, or `none` when no character satisfies `p`. -/
def splitOnFirst : List Char → (Char → Bool) → Option (List Char × List Char)
  | [], _ => none
  | c :: rest, p =>
    if p c then some ([], rest)
    else (splitOnFirst rest p).map (fun pr => (c :: pr.1, pr.2))

/-- Nonempty string of ASCII digits. -/
def isDigitList (cs : List Char) : Bool :=
  !cs.isEmpty && cs.all Char.isDigit

/-- Strip one optional leading sign, returning whether it was a minus sign
together with the remaining characters. -/
def stripSign : List Char → Bool × List Char
  | '-' :: rest => (true, rest)
  | '+' :: rest => (false, rest)
  | cs => (false, cs)

/-- Unsigned float mantissa: digits, optionally with one decimal point, and
at least one digit overall. -/
def mantissaOk (cs : List Char) : Bool :=
  match splitOnFirst cs (fun c => c == '.') with
  | none => isDigitList cs
  | some (a, b) =>
      (!a.isEmpty || !b.isEmpty) && a.all Char.isDigit && b.all Char.isDigit

/-- Signed float mantissa. -/
def signedMantissaOk (cs : List Char) : Bool :=
  mantissaOk (stripSign cs).2

/-- Signed decimal exponent part. -/
def expPartOk (cs : List Char) : Bool :=
  isDigitList (stripSign cs).2

/-- Modelled from the spec: `string_is_float` (from `sunpy.util.io`, not
among the provided sources) holds when "the string parses as a
floating-point literal".  Modelled as an optionally signed decimal literal
with optional fraction and optional decimal exponent; the surrounding
whitespace, underscore separators and `inf`/`nan` spellings accepted by
Python `float` are outside the spec's wording and are not modelled. -/
def string_is_float (s : String) : Bool :=
  match splitOnFirst s.data (fun c => c == 'e' || c == 'E') with
  | none => signedMantissaOk s.data
  | some (m, e) => signedMantissaOk m && expPartOk e

/-- Digit value of an unsigned mantissa together with the length of its
fractional part, so that its exact value is the first component over ten to
the second. -/
def mantissaParts (cs : List Char) : Nat × Nat :=
  match splitOnFirst cs (fun c => c == '.') with
  | none => (digitsVal cs, 0)
  | some (a, b) => (digitsVal a * 10 ^ b.length + digitsVal b, b.length)

/-- Value of a signed exponent part. -/
def expPartVal (cs : List Char) : Int :=
  let p := stripSign cs
  if p.1 then -(digitsVal p.2 : Int) else (digitsVal p.2 : Int)

/-- Modelled from the spec: the value Python `float` gives to a decimal
literal, taken exactly (as a rational) rather than rounded to binary. -/
def pyFloat (s : String) : ℚ :=
  let me :=
    match splitOnFirst s.data (fun c => c == 'e' || c == 'E') with
    | none => (s.data, ([] : List Char))
    | some p => p
  let sgn := (stripSign me.1).1
  let mp := mantissaParts (stripSign me.1).2
  let e := expPartVal me.2
  mkRat ((if sgn then -1 else 1) * (mp.1 : Int) * (10 : Int) ^ e.toNat)
    (10 ^ mp.2 * 10 ^ (-e).toNat)

/-- Smallest power of ten whose product with `q` is an integer, when one at
most `q.den` exists (it does whenever `q` has a finite decimal expansion). -/
def decExponent (q : ℚ) : Nat :=
  (((List.range (q.den + 1)).find? (fun k => 10 ^ k % q.den == 0)).getD 0)

/-- Modelled from the spec: "default string conversion" of a float, as
Python `str` renders a float with a finite decimal expansion — an optional
minus sign, the integer part, a decimal point, and at least one fractional
digit (`3.14`, `3.0`, `-0.25`).  Exponent notation for extreme magnitudes
is not modelled. -/
def qRepr (q : ℚ) : String :=
  let k := decExponent q
  let m := q.num * ((10 ^ k / q.den : Nat) : Int)
  let ds := natDigitsAux (m.natAbs + 1) m.natAbs
  let padded := List.replicate (k + 1 - ds.length) '0' ++ ds
  let intPart : String := ⟨padded.take (padded.length - k)⟩
  let fracPart := padded.drop (padded.length - k)
  let frac : String := ⟨if fracPart.isEmpty then ['0'] else fracPart⟩
  (if m < 0 then "-" else "") ++ intPart ++ "." ++ frac

/-- Header values as they occur in the module: Python `str`, `int`, `float`
and `bool`, with floats as exact rationals. -/
inductive Value where
  | str (s : String)
  | int (n : Int)
  | float (q : ℚ)
  | bool (b : Bool)
deriving DecidableEq

/-- Association-list model of a Python `dict` preserving insertion order;
used both for the string dictionary `xml_to_dict` yields and for the typed
header. -/
def dget? {α : Type} : List (String × α) → String → Option α
  | [], _ => none
  | (k', v) :: rest, k => if k' == k then some v else dget? rest k

/-- Python `d[k] = v`: replace the value in place when the key is present,
otherwise append the binding at the end. -/
def dset {α : Type} (d : List (String × α)) (k : String) (v : α) :
    List (String × α) :=
  if (dget? d k).isSome then
    d.map (fun kv => if kv.1 == k then (k, v) else kv)
  else d ++ [(k, v)]

/-- Modelled from the spec: the metadata mapping's accessor (`MetaDict.get`,
not among the provided sources) coalesces logically duplicated keys; over
the entry list it is modelled as first-occurrence lookup, with Python's
`str(None)` as the vacuous default for absent keys. -/
def dget (d : List (String × Value)) (k : String) : Value :=
  (dget? d k).getD (Value.str "None")

/-- String a header value is serialized with (`header_to_xml`, lines
104-109 of `jp2.py`): booleans become `"1"`/`"0"`, everything else goes
through default string conversion. -/
def stringifyValue : Value → String
  | .bool b => if b then "1" else "0"
  | .str s => s
  | .int n => intStr n
  | .float q => qRepr q

/-- Read-side type coercion of `get_header` (lines 60-64 of `jp2.py`):
all-digit strings become integers via Python `int`, otherwise strings
accepted by `string_is_float` become floats, otherwise the string is kept. -/
def coerceValue (s : String) : Value :=
  if pyIsDigit s then Value.int (digitsVal s.data : Int)
  else if string_is_float s then Value.float (pyFloat s)
  else Value.str s

/-- XML element: a tag, its text content, and its child elements.  Leaf
metadata entries carry their value in `text`; absent text is modelled as
the empty string. -/
inductive XmlElem where
  | mk (tag : String) (text : String) (children : List XmlElem)

/-- Tag of an element. -/
def XmlElem.tag : XmlElem → String
  | ⟨t, _, _⟩ => t

/-- Text content of an element. -/
def XmlElem.text : XmlElem → String
  | ⟨_, x, _⟩ => x

/-- Child elements of an element. -/
def XmlElem.children : XmlElem → List XmlElem
  | ⟨_, _, cs⟩ => cs

/-- ElementTree `find`: the first direct child with the given tag. -/
def findChild (e : XmlElem) (t : String) : Option XmlElem :=
  e.children.find? (fun c => c.tag == t)

/-- Modelled from the spec: the generic XML-to-mapping utility
(`sunpy.util.xml.xml_to_dict`, not among the provided sources): "given an
XML fragment whose root's children are leaf elements, returns a mapping
from child tag to child text", built up as a Python dict (a repeated tag
overwrites the value, keeping the first position). -/
def xml_to_dict (e : XmlElem) : List (String × String) :=
  e.children.foldl (fun d c => dset d c.tag c.text) []

/-- JP2 container boxes: the three structural boxes of a fresh minimal
container, the contiguous codestream holding the pixel data, and the XML
metadata box. -/
inductive Box where
  | signature
  | ftyp
  | jp2h
  | codestream (data : List (List Int))
  | xmlBox (xml : XmlElem)

/-- Four-character box identifier, as glymur exposes it. -/
def Box.box_id : Box → String
  | .signature => "jP  "
  | .ftyp => "ftyp"
  | .jp2h => "jp2h"
  | .codestream _ => "jp2c"
  | .xmlBox _ => "xml "

/-- XML document held by an XML box. -/
def Box.xmlContent : Box → Option XmlElem
  | .xmlBox x => some x
  | _ => none

/-- A container file is its ordered box list. -/
abbrev Container : Type := List Box

/-- Errors the embedded operations can surface; `indexError` is Python's
out-of-range list access, `attributeError` a method call on a value that
lacks it, `typeError` serialization of `None`. -/
inductive PyErr where
  | indexError
  | attributeError
  | typeError
deriving DecidableEq

deriving instance DecidableEq for Except

/-- Boxes whose identifier marks them as XML boxes (line 53 of `jp2.py`). -/
def xmlBoxes (boxes : List Box) : List Box :=
  boxes.filter (fun b => b.box_id == "xml ")

/-- Newline removal, Python `v.replace("\n", "")`. -/
def stripNewlines (s : String) : String :=
  ⟨s.data.filter (fun c => c != '\n')⟩

/-- Comment post-processing of `get_header` (lines 67-68 of `jp2.py`): when
a key `"comment"` is present its value gets its newlines stripped; the
`.replace` call is only an operation of strings, so a value already coerced
to a number raises `AttributeError`. -/
def commentStep (d : List (String × Value)) :
    Except PyErr (List (String × Value)) :=
  match dget? d "comment" with
  | none => .ok d
  | some (.str s) => .ok (dset d "comment" (.str (stripNewlines s)))
  | some _ => .error .attributeError

/-- Header extraction from the XML document of the container's first XML
box (`get_header`, lines 54-73 of `jp2.py`): locate the `fits` child,
parse it into a string dictionary, coerce the value types, strip newlines
from a comment, and record the presence of a `helioviewer` sibling. -/
def getHeaderXml (r : XmlElem) : Except PyErr (List (String × Value)) :=
  match findChild r "fits" with
  | none => .error .typeError
  | some fits =>
    let d := (xml_to_dict fits).map (fun kv => (kv.1, coerceValue kv.2))
    match commentStep d with
    | .error e => .error e
    | .ok d2 =>
        .ok (dset d2 "helioviewer"
          (.bool (findChild r "helioviewer").isSome))

/-- `get_header` of `jp2.py`: the first XML box's document drives
`getHeaderXml`; with no XML box present, the `xml_box[0]` access raises
Python's `IndexError`.  The singleton list wrapper (`[FileHeader(...)]`)
is omitted. -/
def get_header (c : Container) : Except PyErr (List (String × Value)) :=
  match (xmlBoxes c).head? with
  | none => .error .indexError
  | some b =>
    match b.xmlContent with
    | none => .error .typeError
    | some r => getHeaderXml r

/-- Pixel data stored in the container's codestream box, as the codec
decodes it. -/
def decode (c : Container) : List (List Int) :=
  (c.filterMap (fun b =>
    match b with
    | .codestream d => some d
    | _ => none)).headD []

/-- `read` of `jp2.py`: the header, and the decoded pixel data with its
first axis reversed (`[::-1]`). -/
def read (c : Container) : Except PyErr (List (List Int) × List (String × Value)) :=
  match get_header c with
  | .error e => .error e
  | .ok h => .ok ((decode c).reverse, h)

/-- Children of the `fits` element built by `header_to_xml` (lines 90-109
of `jp2.py`): one leaf element per key in iteration order, keys already
seen being skipped, the element text coming from the mapping accessor. -/
def headerChildrenAux (header : List (String × Value)) :
    List (String × Value) → List String → List XmlElem
  | [], _ => []
  | (k, _) :: rest, seen =>
    if k ∈ seen then headerChildrenAux header rest seen
    else
      ⟨k, stringifyValue (dget header k), []⟩ ::
        headerChildrenAux header rest (k :: seen)

/-- `header_to_xml` of `jp2.py`: the `fits` element whose children carry
the serialized header entries. -/
def header_to_xml (header : List (String × Value)) : XmlElem :=
  ⟨"fits", "", headerChildrenAux header header []⟩

/-- `generate_jp2_xmlbox` of `jp2.py`: the `fits` fragment wrapped in a
`meta` root, packaged as an XML box. -/
def generate_jp2_xmlbox (header : List (String × Value)) : Box :=
  .xmlBox ⟨"meta", "", [header_to_xml header]⟩

/-- `get_tmp_jp2_file_name` of `jp2.py`. -/
def get_tmp_jp2_file_name (filename : String) : String :=
  filename ++ ".tmp.jp2"

/-- Numpy `np.uint8` applied to the pixel array: unsigned 8-bit
truncation, each sample taken modulo 256. -/
def np_uint8 (data : List (List Int)) : List (List Int) :=
  data.map (List.map (fun x => x % 256))

/-- Modelled from the spec: the external codec's encode, which produces a
"container with default minimal box list" — for JP2 the signature,
file-type and header boxes followed by the codestream. -/
def encodeBoxes (data : List (List Int)) : List Box :=
  [Box.signature, Box.ftyp, Box.jp2h, Box.codestream data]

/-- Python `list.insert` at a nonnegative index: insert before the element
at that position, appending when the index reaches past the end. -/
def insertAt : Nat → Box → List Box → List Box
  | 0, b, l => b :: l
  | _ + 1, b, [] => [b]
  | n + 1, b, x :: l => x :: insertAt n b l

/-- `write` of `jp2.py`: encode the truncated pixel data into a fresh
container, then insert the XML metadata box at position `len - 1`, just
before the final box.  The temporary-file plumbing and the final rewrite
to disk are I/O and are not modelled; the result is the box list the
destination container is rewritten with. -/
def write (data : List (List Int)) (header : List (String × Value)) :
    Container :=
  let jp2_data := np_uint8 data
  let meta_boxes := encodeBoxes jp2_data
  let target_index := meta_boxes.length - 1
  let fits_box := generate_jp2_xmlbox header
  insertAt target_index fits_box meta_boxes

/-! ### Supporting lemmas: decimal digit strings -/

theorem digitsVal_append (xs : List Char) (c : Char) :
    digitsVal (xs ++ [c]) = 10 * digitsVal xs + (c.toNat - 48) := by
  simp [digitsVal, List.foldl_append]

theorem digit_char_spec (d : Nat) (hd : d < 10) :
    (Char.ofNat (48 + d)).isDigit = true ∧ (Char.ofNat (48 + d)).toNat = 48 + d := by
  interval_cases d <;> exact ⟨by decide, by decide⟩

theorem natDigitsAux_spec :
    ∀ fuel n, n < fuel →
      natDigitsAux fuel n ≠ [] ∧
      (natDigitsAux fuel n).all Char.isDigit = true ∧
      digitsVal (natDigitsAux fuel n) = n := by
  intro fuel
  induction fuel with
  | zero => intro n hn; omega
  | succ fuel ih =>
    intro n hn
    by_cases h10 : n < 10
    · obtain ⟨hdig, htn⟩ := digit_char_spec n h10
      refine ⟨by simp [natDigitsAux, h10], ?_, ?_⟩
      · simp [natDigitsAux, h10, hdig]
      · simp [natDigitsAux, h10, digitsVal, htn]
    · have hpos : 0 < n := by omega
      have hlt : n / 10 < n := Nat.div_lt_self hpos (by omega)
      obtain ⟨hne, hall, hval⟩ := ih (n / 10) (by omega)
      obtain ⟨hdig, htn⟩ := digit_char_spec (n % 10) (Nat.mod_lt _ (by omega))
      refine ⟨by simp [natDigitsAux, h10], ?_, ?_⟩
      · simp [natDigitsAux, h10, List.all_append, hall, hdig]
      · have := digitsVal_append (natDigitsAux fuel (n / 10))
          (Char.ofNat (48 + n % 10))
        simp only [natDigitsAux, if_neg h10, this, hval, htn]
        omega

theorem natStr_data (n : Nat) : (natStr n).data = natDigitsAux (n + 1) n := rfl

theorem pyIsDigit_natStr (n : Nat) : pyIsDigit (natStr n) = true := by
  obtain ⟨hne, hall, -⟩ := natDigitsAux_spec (n + 1) n (Nat.lt_succ_self n)
  simp only [pyIsDigit, natStr_data, hall, Bool.and_true, Bool.not_eq_eq_eq_not,
    Bool.not_false]
  simpa [List.isEmpty_eq_true] using hne

theorem digitsVal_natStr (n : Nat) : digitsVal (natStr n).data = n :=
  (natDigitsAux_spec (n + 1) n (Nat.lt_succ_self n)).2.2

theorem coerceValue_intStr (i : Int) (hi : 0 ≤ i) :
    coerceValue (intStr i) = Value.int i := by
  have hneg : ¬ i < 0 := by omega
  simp only [intStr, if_neg hneg, coerceValue, pyIsDigit_natStr, if_pos,
    digitsVal_natStr, Int.toNat_of_nonneg hi]

/-! ### Supporting lemmas: the ordered-dict model -/

theorem dget?_eq_none {α : Type} {l : List (String × α)} {k : String}
    (h : k ∉ l.map Prod.fst) : dget? l k = none := by
  induction l with
  | nil => rfl
  | cons kv rest ih =>
    simp only [List.map_cons, List.mem_cons, not_or] at h
    have hne : kv.1 ≠ k := fun hh => h.1 hh.symm
    simp only [dget?]
    rw [if_neg (by simpa using hne)]
    exact ih h.2

theorem dget?_of_mem_nodup {α : Type} {l : List (String × α)} {k : String}
    {v : α} (hnd : (l.map Prod.fst).Nodup) (hmem : (k, v) ∈ l) :
    dget? l k = some v := by
  induction l with
  | nil => cases hmem
  | cons kv rest ih =>
    simp only [List.map_cons, List.nodup_cons] at hnd
    rcases List.mem_cons.1 hmem with heq | htail
    · subst heq; simp [dget?]
    · have hne : kv.1 ≠ k := by
        intro h
        exact hnd.1 (h ▸ List.mem_map.2 ⟨(k, v), htail, rfl⟩)
      simp only [dget?]
      rw [if_neg (by simpa using hne)]
      exact ih hnd.2 htail

theorem dget?_map_values {α β : Type} (l : List (String × α)) (f : α → β)
    (k : String) :
    dget? (l.map (fun kv => (kv.1, f kv.2))) k = (dget? l k).map f := by
  induction l with
  | nil => rfl
  | cons kv rest ih =>
    by_cases h : kv.1 = k
    · simp [dget?, h]
    · simp only [List.map_cons, dget?]
      rw [if_neg (by simpa using h), if_neg (by simpa using h)]
      exact ih

theorem keys_map_values {α β : Type} (l : List (String × α)) (f : α → β) :
    (l.map (fun kv => (kv.1, f kv.2))).map Prod.fst = l.map Prod.fst := by
  simp [List.map_map]

theorem dget?_append_left {α : Type} {l : List (String × α)}
    {k : String} {v : α} (h : dget? l k = some v) (l' : List (String × α)) :
    dget? (l ++ l') k = some v := by
  induction l with
  | nil => simp [dget?] at h
  | cons kv rest ih =>
    by_cases hk : kv.1 = k
    · simpa [dget?, hk] using h
    · simp only [dget?] at h ⊢
      rw [if_neg (by simpa using hk)] at h
      rw [if_neg (by simpa using hk)]
      exact ih h

theorem dget?_append_right {α : Type} {l : List (String × α)} {k : String}
    (h : dget? l k = none) (l' : List (String × α)) :
    dget? (l ++ l') k = dget? l' k := by
  induction l with
  | nil => rfl
  | cons kv rest ih =>
    by_cases hk : kv.1 = k
    · simp [dget?, hk] at h
    · simp only [dget?] at h ⊢
      rw [if_neg (by simpa using hk)] at h
      rw [if_neg (by simpa using hk)]
      exact ih h

theorem dset_of_none {α : Type} {l : List (String × α)} {k : String}
    (h : dget? l k = none) (v : α) : dset l k v = l ++ [(k, v)] := by
  simp [dset, h]

theorem dget?_mapReplace_self {α : Type} {l : List (String × α)} {k : String}
    (h : (dget? l k).isSome = true) (v : α) :
    dget? (l.map (fun kv => if kv.1 == k then (k, v) else kv)) k = some v := by
  induction l with
  | nil => simp [dget?] at h
  | cons kv rest ih =>
    by_cases hk : kv.1 = k
    · simp only [List.map_cons]
      rw [if_pos (by simpa using hk)]
      simp [dget?]
    · simp only [dget?] at h
      rw [if_neg (by simpa using hk)] at h
      simp only [List.map_cons]
      rw [if_neg (by simpa using hk)]
      rw [dget?]
      rw [if_neg (by simpa using hk)]
      exact ih h

theorem dget?_mapReplace_ne {α : Type} (l : List (String × α))
    {k k' : String} (hne : k' ≠ k) (v : α) :
    dget? (l.map (fun kv => if kv.1 == k then (k, v) else kv)) k' =
      dget? l k' := by
  induction l with
  | nil => rfl
  | cons kv rest ih =>
    by_cases hk : kv.1 = k
    · simp only [List.map_cons]
      rw [if_pos (by simpa using hk)]
      rw [dget?, dget?]
      rw [if_neg (by simpa using (Ne.symm hne)),
        if_neg (by simpa [hk] using (Ne.symm hne))]
      exact ih
    · simp only [List.map_cons]
      rw [if_neg (by simpa using hk)]
      by_cases hk' : kv.1 = k'
      · simp [dget?, hk']
      · rw [dget?, dget?]
        rw [if_neg (by simpa using hk'), if_neg (by simpa using hk')]
        exact ih

theorem dget?_dset_self {α : Type} (l : List (String × α)) (k : String)
    (v : α) : dget? (dset l k v) k = some v := by
  by_cases h : (dget? l k).isSome
  · simp only [dset, if_pos h]
    exact dget?_mapReplace_self h v
  · have hn : dget? l k = none := Option.not_isSome_iff_eq_none.1 h
    rw [dset_of_none hn, dget?_append_right hn]
    simp [dget?]

theorem dget?_dset_ne {α : Type} (l : List (String × α)) {k k' : String}
    (hne : k' ≠ k) (v : α) : dget? (dset l k v) k' = dget? l k' := by
  by_cases h : (dget? l k).isSome
  · simp only [dset, if_pos h]
    exact dget?_mapReplace_ne l hne v
  · have hn : dget? l k = none := Option.not_isSome_iff_eq_none.1 h
    rw [dset_of_none hn]
    cases hl : dget? l k' with
    | some w => rw [dget?_append_left hl]
    | none =>
      rw [dget?_append_right hl]
      simp [dget?, Ne.symm hne]

/-! ### Supporting lemmas: XML dictionaries and header serialization -/

theorem foldl_dset_nodup :
    ∀ (cs : List XmlElem) (acc : List (String × String)),
      (cs.map XmlElem.tag).Nodup →
      (∀ c ∈ cs, dget? acc c.tag = none) →
      cs.foldl (fun d c => dset d c.tag c.text) acc =
        acc ++ cs.map (fun c => (c.tag, c.text)) := by
  intro cs
  induction cs with
  | nil => intro acc _ _; simp
  | cons c rest ih =>
    intro acc hnd hacc
    simp only [List.map_cons, List.nodup_cons] at hnd
    have hstep : dset acc c.tag c.text = acc ++ [(c.tag, c.text)] :=
      dset_of_none (hacc c (List.mem_cons_self c rest)) c.text
    simp only [List.foldl_cons, hstep]
    rw [ih (acc ++ [(c.tag, c.text)]) hnd.2 ?_]
    · simp
    · intro c' hc'
      have h1 : dget? acc c'.tag = none := hacc c' (List.mem_cons_of_mem c hc')
      rw [dget?_append_right h1]
      have hne : c.tag ≠ c'.tag := by
        intro heq
        exact hnd.1 (heq ▸ List.mem_map.2 ⟨c', hc', rfl⟩)
      simp [dget?, hne]

theorem xml_to_dict_of_nodup (t x : String) (cs : List XmlElem)
    (hnd : (cs.map XmlElem.tag).Nodup) :
    xml_to_dict ⟨t, x, cs⟩ = cs.map (fun c => (c.tag, c.text)) := by
  have := foldl_dset_nodup cs [] hnd (fun c _ => rfl)
  simpa [xml_to_dict, XmlElem.children] using this

/-- First-occurrence deduplication of a key list, the set-based skip of
`header_to_xml` expressed without an accumulator. -/
def firstDedup : List String → List String
  | [] => []
  | k :: rest => k :: (firstDedup rest).filter (fun x => decide (x ≠ k))

theorem mem_firstDedup (l : List String) (x : String) :
    x ∈ firstDedup l ↔ x ∈ l := by
  induction l with
  | nil => simp [firstDedup]
  | cons k rest ih =>
    by_cases hx : x = k
    · simp [firstDedup, hx]
    · simp [firstDedup, List.mem_filter, hx, ih]

theorem firstDedup_nodup (l : List String) : (firstDedup l).Nodup := by
  induction l with
  | nil => simp [firstDedup]
  | cons k rest ih =>
    simp only [firstDedup, List.nodup_cons]
    constructor
    · intro hmem
      have := (List.mem_filter.1 hmem).2
      simp at this
    · exact ih.filter _

theorem firstDedup_of_nodup {l : List String} (h : l.Nodup) :
    firstDedup l = l := by
  induction l with
  | nil => rfl
  | cons k rest ih =>
    simp only [List.nodup_cons] at h
    simp only [firstDedup, ih h.2]
    rw [List.filter_eq_self.2 ?_]
    intro a ha
    simp only [decide_eq_true_eq]
    intro heq
    exact h.1 (heq ▸ ha)

theorem headerChildrenAux_eq (header : List (String × Value)) :
    ∀ (rest : List (String × Value)) (seen : List String),
      headerChildrenAux header rest seen =
        ((firstDedup (rest.map Prod.fst)).filter
            (fun x => decide (x ∉ seen))).map
          (fun k => (⟨k, stringifyValue (dget header k), []⟩ : XmlElem)) := by
  intro rest
  induction rest with
  | nil => intro seen; rfl
  | cons kv rest ih =>
    intro seen
    simp only [headerChildrenAux, List.map_cons, firstDedup, List.filter_cons]
    by_cases hmem : kv.1 ∈ seen
    · rw [if_pos hmem, ih seen]
      rw [if_neg (by simpa using hmem)]
      rw [List.filter_filter]
      congr 1
      apply List.filter_congr
      intro x _
      by_cases hxs : x ∈ seen
      · simp [hxs]
      · have hxk : x ≠ kv.1 := fun h => hxs (h ▸ hmem)
        simp [hxs, hxk]
    · rw [if_neg hmem, ih (kv.1 :: seen)]
      rw [if_pos (by simpa using hmem)]
      simp only [List.map_cons]
      congr 1
      rw [List.filter_filter]
      congr 1
      apply List.filter_congr
      intro x _
      by_cases hxk : x = kv.1
      · simp [hxk]
      · by_cases hxs : x ∈ seen <;> simp [hxk, hxs]

theorem header_to_xml_children (header : List (String × Value)) :
    (header_to_xml header).children =
      (firstDedup (header.map Prod.fst)).map
        (fun k => (⟨k, stringifyValue (dget header k), []⟩ : XmlElem)) := by
  show headerChildrenAux header header [] = _
  rw [headerChildrenAux_eq header header []]
  congr 1
  rw [List.filter_eq_self.2 ?_]
  intro a _
  simp

theorem header_to_xml_children_of_nodup {header : List (String × Value)}
    (hnd : (header.map Prod.fst).Nodup) :
    (header_to_xml header).children =
      header.map (fun kv =>
        (⟨kv.1, stringifyValue kv.2, []⟩ : XmlElem)) := by
  rw [header_to_xml_children, firstDedup_of_nodup hnd, List.map_map]
  apply List.map_congr_left
  intro kv hkv
  simp only [Function.comp_apply]
  congr 1
  simp only [dget, dget?_of_mem_nodup hnd (by exact hkv), Option.getD_some]

/-! ### Supporting lemmas: the write-then-read pipeline -/

theorem find?_children_assoc (header : List (String × Value))
    (f : Value → String) (k : String) :
    (header.map (fun kv => (⟨kv.1, f kv.2, []⟩ : XmlElem))).find?
        (fun c => c.tag == k) =
      (dget? header k).map (fun v => (⟨k, f v, []⟩ : XmlElem)) := by
  induction header with
  | nil => rfl
  | cons kv rest ih =>
    by_cases h : kv.1 = k
    · simp [List.find?_cons, XmlElem.tag, h, dget?]
    · simp only [List.map_cons, List.find?_cons, XmlElem.tag, dget?]
      rw [if_neg (by simpa using h)]
      cases hbeq : (kv.1 == k)
      · exact ih
      · exact absurd (by simpa using hbeq) h

theorem write_boxes (data : List (List Int)) (header : List (String × Value)) :
    write data header =
      [Box.signature, Box.ftyp, Box.jp2h, generate_jp2_xmlbox header,
        Box.codestream (np_uint8 data)] := rfl

theorem decode_write (data : List (List Int)) (header : List (String × Value)) :
    decode (write data header) = np_uint8 data := rfl

theorem np_uint8_of_bounded {data : List (List Int)}
    (h : ∀ row ∈ data, ∀ x ∈ row, 0 ≤ x ∧ x < 256) : np_uint8 data = data := by
  unfold np_uint8
  rw [List.map_congr_left ?_]
  · exact List.map_id data
  · intro row hrow
    rw [List.map_congr_left ?_]
    · exact List.map_id row
    · intro x hx
      exact Int.emod_eq_of_lt (h row hrow x hx).1 (h row hrow x hx).2

theorem get_header_write (data : List (List Int))
    (header : List (String × Value))
    (hnd : (header.map Prod.fst).Nodup)
    (hc : "comment" ∉ header.map Prod.fst)
    (hh : "helioviewer" ∉ header.map Prod.fst) :
    get_header (write data header) =
      .ok ((header.map fun kv => (kv.1, coerceValue (stringifyValue kv.2))) ++
        [("helioviewer", Value.bool false)]) := by
  have hstep : get_header (write data header) =
      getHeaderXml ⟨"meta", "", [header_to_xml header]⟩ := rfl
  rw [hstep]
  have hfits : findChild ⟨"meta", "", [header_to_xml header]⟩ "fits" =
      some (header_to_xml header) := rfl
  have hhelio : findChild ⟨"meta", "", [header_to_xml header]⟩ "helioviewer" =
      none := rfl
  have hchildren := header_to_xml_children_of_nodup hnd
  have htags : ((header_to_xml header).children.map XmlElem.tag).Nodup := by
    rw [hchildren, List.map_map]
    have : (XmlElem.tag ∘ fun kv : String × Value =>
        (⟨kv.1, stringifyValue kv.2, []⟩ : XmlElem)) = Prod.fst := by
      funext kv; rfl
    rw [this]
    exact hnd
  have hdict : xml_to_dict (header_to_xml header) =
      header.map (fun kv => (kv.1, stringifyValue kv.2)) := by
    have hform : header_to_xml header =
        ⟨"fits", "", (header_to_xml header).children⟩ := rfl
    rw [hform, xml_to_dict_of_nodup _ _ _ htags, hchildren, List.map_map]
    apply List.map_congr_left
    intro kv _
    rfl
  have hcoerced :
      (xml_to_dict (header_to_xml header)).map
          (fun kv => (kv.1, coerceValue kv.2)) =
        header.map (fun kv => (kv.1, coerceValue (stringifyValue kv.2))) := by
    rw [hdict, List.map_map]
    apply List.map_congr_left
    intro kv _
    rfl
  have hkeys :
      ((xml_to_dict (header_to_xml header)).map
          (fun kv => (kv.1, coerceValue kv.2))).map Prod.fst =
        header.map Prod.fst := by
    rw [hcoerced]
    exact keys_map_values header (fun v => coerceValue (stringifyValue v))
  have hcomment : commentStep
      ((xml_to_dict (header_to_xml header)).map
        (fun kv => (kv.1, coerceValue kv.2))) =
      .ok ((xml_to_dict (header_to_xml header)).map
        (fun kv => (kv.1, coerceValue kv.2))) := by
    unfold commentStep
    rw [dget?_eq_none (by rw [hkeys]; exact hc)]
  have hnohelio : dget?
      ((xml_to_dict (header_to_xml header)).map
        (fun kv => (kv.1, coerceValue kv.2))) "helioviewer" = none :=
    dget?_eq_none (by rw [hkeys]; exact hh)
  unfold getHeaderXml
  rw [hfits]
  simp only [hcomment, hhelio, Option.isSome_none]
  rw [dset_of_none hnohelio, hcoerced]

theorem read_write (data : List (List Int)) (header : List (String × Value))
    (hnd : (header.map Prod.fst).Nodup)
    (hc : "comment" ∉ header.map Prod.fst)
    (hh : "helioviewer" ∉ header.map Prod.fst) :
    read (write data header) =
      .ok ((np_uint8 data).reverse,
        (header.map fun kv => (kv.1, coerceValue (stringifyValue kv.2))) ++
          [("helioviewer", Value.bool false)]) := by
  have hr : read (write data header) =
      (match get_header (write data header) with
        | .error e => .error e
        | .ok h => .ok ((decode (write data header)).reverse, h)) := rfl
  rw [hr, get_header_write data header hnd hc hh]
  rfl

theorem get_header_eq_of_first_xml {boxes : List Box} {r : XmlElem}
    (h : (xmlBoxes boxes).head? = some (.xmlBox r)) :
    get_header boxes = getHeaderXml r := by
  unfold get_header
  rw [h]
  rfl

theorem getHeaderXml_eq {r fits : XmlElem}
    (hf : findChild r "fits" = some fits) :
    getHeaderXml r =
      (match commentStep ((xml_to_dict fits).map
          (fun kv => (kv.1, coerceValue kv.2))) with
        | .error e => .error e
        | .ok d2 => .ok (dset d2 "helioviewer"
            (.bool (findChild r "helioviewer").isSome))) := by
  unfold getHeaderXml
  rw [hf]

theorem commentStep_of_none {d : List (String × Value)}
    (h : dget? d "comment" = none) : commentStep d = .ok d := by
  unfold commentStep
  rw [h]

theorem commentStep_of_str {d : List (String × Value)} {s : String}
    (h : dget? d "comment" = some (.str s)) :
    commentStep d = .ok (dset d "comment" (.str (stripNewlines s))) := by
  unfold commentStep
  rw [h]

theorem commentStep_of_numeric {d : List (String × Value)} {v : Value}
    (h : dget? d "comment" = some v) (hv : ∀ s, v ≠ .str s) :
    commentStep d = .error .attributeError := by
  unfold commentStep
  rw [h]
  cases v with
  | str s => exact absurd rfl (hv s)
  | int n => rfl
  | float q => rfl
  | bool b => rfl

/-- The comment entry of a string dictionary, when present, is neither an
all-digit string nor a float literal, so the read-side coercion leaves it a
string and the newline-stripping step cannot fail. -/
def commentSafe (sd : List (String × String)) : Bool :=
  match dget? sd "comment" with
  | none => true
  | some cs => !pyIsDigit cs && !string_is_float cs

theorem coerceValue_of_guards {s : String} (h1 : pyIsDigit s = false)
    (h2 : string_is_float s = false) : coerceValue s = .str s := by
  simp [coerceValue, h1, h2]

theorem coerceValue_not_str {s : String}
    (h : pyIsDigit s = true ∨ string_is_float s = true) :
    ∀ t, coerceValue s ≠ .str t := by
  intro t
  unfold coerceValue
  rcases h with h | h
  · rw [if_pos h]; intro hcon; cases hcon
  · by_cases hd : pyIsDigit s = true
    · rw [if_pos hd]; intro hcon; cases hcon
    · rw [if_neg hd, if_pos h]; intro hcon; cases hcon

/-- Values whose serialized string survives the read-side coercion
unchanged in kind: nonnegative integers, representation-stable floats,
and nonempty strings that look neither like an integer nor like a float
literal.  Booleans are always serializable (their round-trip lands on an
integer, see `roundtripValue`). -/
def valueStable : Value → Bool
  | .str s => !pyIsDigit s && !string_is_float s && !s.data.isEmpty
  | .int n => decide (0 ≤ n)
  | .float q => decide (coerceValue (qRepr q) = Value.float q)
  | .bool _ => true

/-- Value the read-side coercion recovers from a serialized stable value:
the value itself, except that booleans come back as the integers 1/0. -/
def roundtripValue : Value → Value
  | .bool b => .int (if b then 1 else 0)
  | v => v

theorem coerceValue_stringifyValue {v : Value} (h : valueStable v = true) :
    coerceValue (stringifyValue v) = roundtripValue v := by
  cases v with
  | str s =>
    simp only [valueStable, Bool.and_eq_true, Bool.not_eq_eq_eq_not,
      Bool.not_true] at h
    exact coerceValue_of_guards h.1.1 h.1.2
  | int n =>
    simp only [valueStable, decide_eq_true_eq] at h
    exact coerceValue_intStr n h
  | float q =>
    simp only [valueStable, decide_eq_true_eq] at h
    exact h
  | bool b => cases b <;> decide

/-! ### Claims -/

/-- C1, counterexample: the round-trip is not the identity on header
values for every mapping with string, integer, float, and boolean values.
For the boolean value `True` under key `"flag"`, write-then-read yields the
integer `1`, which is a different value from `True` (and the parenthetical
exemption covers only the string representation of ints and floats); the
read-back header moreover gains a synthetic `helioviewer` entry. -/
theorem write_read_roundtrip_cex :
    read (write [[5]] [("flag", Value.bool true)]) =
      .ok ([[5]], [("flag", Value.int 1), ("helioviewer", Value.bool false)]) ∧
    Value.int 1 ≠ Value.bool true := by
  exact ⟨by decide, by decide⟩

/-- C1 (amended): for every metadata mapping with distinct keys avoiding
the reserved keys `"comment"` and `"helioviewer"`, whose values are
round-trip-stable (nonnegative integers, representation-stable floats, and
nonempty strings that are neither all digits nor float literals; booleans
are always accepted), and every pixel array whose samples fit in unsigned
8 bits, write followed by read yields the pixel array reversed along its
first axis and a header carrying, per original key, the original value —
except that booleans come back as the integers 1/0 — followed by a
synthetic `helioviewer: False` entry. -/
theorem write_read_roundtrip_amended (data : List (List Int))
    (header : List (String × Value))
    (hdata : ∀ row ∈ data, ∀ x ∈ row, 0 ≤ x ∧ x < 256)
    (hnd : (header.map Prod.fst).Nodup)
    (hc : "comment" ∉ header.map Prod.fst)
    (hh : "helioviewer" ∉ header.map Prod.fst)
    (hv : ∀ kv ∈ header, valueStable kv.2 = true) :
    read (write data header) =
      .ok (data.reverse,
        (header.map fun kv => (kv.1, roundtripValue kv.2)) ++
          [("helioviewer", Value.bool false)]) := by
  rw [read_write data header hnd hc hh, np_uint8_of_bounded hdata]
  have : (header.map fun kv => (kv.1, coerceValue (stringifyValue kv.2))) =
      header.map fun kv => (kv.1, roundtripValue kv.2) := by
    apply List.map_congr_left
    intro kv hkv
    rw [coerceValue_stringifyValue (hv kv hkv)]
  rw [this]

/-- Concrete header used by the round-trip witness: one value of each
kind. -/
def witnessHeader : List (String × Value) :=
  [("alg", Value.str "lossless"), ("n", Value.int 42),
    ("scale", Value.float (mkRat 157 50)), ("flag", Value.bool true)]

/-- C1, witness: the amended round-trip at a concrete pixel array and a
concrete header with one value of each kind. -/
theorem write_read_roundtrip_amended_witness :
    ((witnessHeader.map Prod.fst).Nodup ∧
      "comment" ∉ witnessHeader.map Prod.fst ∧
      "helioviewer" ∉ witnessHeader.map Prod.fst ∧
      (∀ kv ∈ witnessHeader, valueStable kv.2 = true)) ∧
    read (write [[1, 2], [3, 4]] witnessHeader) =
      .ok ([[3, 4], [1, 2]],
        [("alg", Value.str "lossless"), ("n", Value.int 42),
          ("scale", Value.float (mkRat 157 50)), ("flag", Value.int 1),
          ("helioviewer", Value.bool false)]) :=
  ⟨⟨by decide, by decide, by decide, by decide⟩,
    write_read_roundtrip_amended [[1, 2], [3, 4]] witnessHeader
      (by decide) (by decide) (by decide) (by decide) (by decide)⟩

theorem find?_isSome_eq_any {α : Type} (l : List α) (p : α → Bool) :
    (l.find? p).isSome = l.any p := by
  induction l with
  | nil => rfl
  | cons x xs ih => cases hp : p x <;> simp [List.find?_cons, hp, ih]

theorem commentStep_safe {sd : List (String × String)}
    (hcs : commentSafe sd = true) :
    ∃ d2, commentStep (sd.map (fun kv => (kv.1, coerceValue kv.2))) = .ok d2 ∧
      ∀ k, k ≠ "comment" →
        dget? d2 k =
          dget? (sd.map (fun kv => (kv.1, coerceValue kv.2))) k := by
  cases hd : dget? sd "comment" with
  | none =>
    refine ⟨_, commentStep_of_none ?_, fun k _ => rfl⟩
    rw [dget?_map_values, hd]
    rfl
  | some cs =>
    unfold commentSafe at hcs
    rw [hd] at hcs
    simp only [Bool.and_eq_true, Bool.not_eq_eq_eq_not, Bool.not_true] at hcs
    have hstr : dget? (sd.map (fun kv => (kv.1, coerceValue kv.2)))
        "comment" = some (.str cs) := by
      rw [dget?_map_values, hd]
      rw [show Option.map coerceValue (some cs) = some (coerceValue cs)
        from rfl]
      rw [coerceValue_of_guards hcs.1 hcs.2]
    refine ⟨_, commentStep_of_str hstr, fun k hk => ?_⟩
    exact dget?_dset_ne _ hk _

/-- C2: on a well-formed container whose box list has no XML metadata box,
`get_header` fails with Python's `IndexError` — the out-of-range
`xml_box[0]` access on the empty filtered list — and not with a named
`MissingMetadataError`; no such error type exists in the module. -/
theorem get_header_no_xml_box_index_error (boxes : List Box)
    (h : xmlBoxes boxes = []) : get_header boxes = .error .indexError := by
  unfold get_header
  rw [h]
  rfl

/-- C2, witness: the index error at a concrete container holding only the
four default boxes of a fresh encode. -/
theorem get_header_no_xml_box_index_error_witness :
    xmlBoxes [Box.signature, Box.ftyp, Box.jp2h, Box.codestream [[0]]] =
      [] ∧
    get_header [Box.signature, Box.ftyp, Box.jp2h, Box.codestream [[0]]] =
      .error .indexError :=
  ⟨rfl, get_header_no_xml_box_index_error _ rfl⟩

/-- C3, counterexample: for the header `flag: True`, the serialized element
text is `"1"`, but `get_header` on the written file coerces that digit
string to the integer `1` — the value does not remain the string `"1"`. -/
theorem bool_true_readback_cex :
    findChild (header_to_xml [("flag", Value.bool true)]) "flag" =
      some ⟨"flag", "1", []⟩ ∧
    get_header (write [[6]] [("flag", Value.bool true)]) =
      .ok [("flag", Value.int 1), ("helioviewer", Value.bool false)] ∧
    Value.int 1 ≠ Value.str "1" :=
  ⟨rfl, by decide, by decide⟩

/-- C3 (amended): for every header containing a boolean value `True` under
a key with distinct keys avoiding `"comment"` and `"helioviewer"`, `write`
serializes it as the string `"1"` (the element text), and a subsequent
`get_header` of the written file returns the integer `1` for that key: the
all-digit string is picked up by the integer branch of the read-side
coercion, so booleans come back as integers, not as strings or booleans. -/
theorem bool_true_readback_int (data : List (List Int))
    (header : List (String × Value)) (k : String)
    (hnd : (header.map Prod.fst).Nodup)
    (hmem : (k, Value.bool true) ∈ header)
    (hc : "comment" ∉ header.map Prod.fst)
    (hh : "helioviewer" ∉ header.map Prod.fst) :
    findChild (header_to_xml header) k = some ⟨k, "1", []⟩ ∧
    ∃ hd, get_header (write data header) = .ok hd ∧
      dget? hd k = some (Value.int 1) := by
  have hget : dget? header k = some (Value.bool true) :=
    dget?_of_mem_nodup hnd hmem
  constructor
  · have h1 : findChild (header_to_xml header) k =
        (dget? header k).map
          (fun v => (⟨k, stringifyValue v, []⟩ : XmlElem)) := by
      unfold findChild
      rw [header_to_xml_children_of_nodup hnd]
      exact find?_children_assoc header stringifyValue k
    rw [h1, hget]
    rfl
  · refine ⟨_, get_header_write data header hnd hc hh, ?_⟩
    have h2 : dget? (header.map
        (fun kv => (kv.1, coerceValue (stringifyValue kv.2)))) k =
        some (Value.int 1) := by
      have := dget?_map_values header
        (fun v => coerceValue (stringifyValue v)) k
      rw [this, hget]
      rfl
    exact dget?_append_left h2 _

/-- C3, witness: the amended statement at the one-entry header
`flag: True`. -/
theorem bool_true_readback_int_witness :
    (([("flag", Value.bool true)].map Prod.fst).Nodup ∧
      ("flag", Value.bool true) ∈ [("flag", Value.bool true)] ∧
      "comment" ∉ [("flag", Value.bool true)].map Prod.fst ∧
      "helioviewer" ∉ [("flag", Value.bool true)].map Prod.fst) ∧
    (findChild (header_to_xml [("flag", Value.bool true)]) "flag" =
        some ⟨"flag", "1", []⟩ ∧
      ∃ hd, get_header (write [[7]] [("flag", Value.bool true)]) = .ok hd ∧
        dget? hd "flag" = some (Value.int 1)) :=
  ⟨⟨by decide, by decide, by decide, by decide⟩,
    bool_true_readback_int [[7]] [("flag", Value.bool true)] "flag"
      (by decide) (by decide) (by decide) (by decide)⟩

/-- C4: for every header value string `s` parsed out of the XML fragment
(under a key other than the reserved `"comment"`/`"helioviewer"`, with the
comment entry, if any, coercion-safe), the header `get_header` returns
carries, for that key, exactly the three-way coercion of `s`: the integer
value of an all-digit string, else the float value of a float literal,
else the unchanged string. -/
theorem get_header_type_coercion (boxes : List Box) (r fits : XmlElem)
    (k s : String)
    (hx : (xmlBoxes boxes).head? = some (.xmlBox r))
    (hf : findChild r "fits" = some fits)
    (hk : dget? (xml_to_dict fits) k = some s)
    (hkc : k ≠ "comment") (hkh : k ≠ "helioviewer")
    (hcs : commentSafe (xml_to_dict fits) = true) :
    ∃ hd, get_header boxes = .ok hd ∧
      dget? hd k =
        some (if pyIsDigit s then Value.int (digitsVal s.data)
          else if string_is_float s then Value.float (pyFloat s)
          else Value.str s) := by
  obtain ⟨d2, hstep, hpres⟩ := commentStep_safe hcs
  rw [get_header_eq_of_first_xml hx, getHeaderXml_eq hf, hstep]
  refine ⟨_, rfl, ?_⟩
  rw [dget?_dset_ne _ hkh, hpres k hkc, dget?_map_values, hk]
  rfl

/-- C4, witness: a container whose `fits` fragment holds `"42"`, `"3.14"`
and `"hello"`, instantiating the coercion at the float entry (with the
resulting values spelled out for all three). -/
theorem get_header_type_coercion_witness :
    (∃ hd, get_header [Box.xmlBox ⟨"meta", "",
        [⟨"fits", "", [⟨"w", "42", []⟩, ⟨"x", "3.14", []⟩,
          ⟨"y", "hello", []⟩]⟩]⟩] = .ok hd ∧
      dget? hd "x" =
        some (if pyIsDigit "3.14" then Value.int (digitsVal "3.14".data)
          else if string_is_float "3.14" then Value.float (pyFloat "3.14")
          else Value.str "3.14")) ∧
    (if pyIsDigit "42" then Value.int (digitsVal "42".data)
      else if string_is_float "42" then Value.float (pyFloat "42")
      else Value.str "42") = Value.int 42 ∧
    (if pyIsDigit "3.14" then Value.int (digitsVal "3.14".data)
      else if string_is_float "3.14" then Value.float (pyFloat "3.14")
      else Value.str "3.14") = Value.float (mkRat 157 50) ∧
    (if pyIsDigit "hello" then Value.int (digitsVal "hello".data)
      else if string_is_float "hello" then Value.float (pyFloat "hello")
      else Value.str "hello") = Value.str "hello" :=
  ⟨get_header_type_coercion
      [Box.xmlBox ⟨"meta", "",
        [⟨"fits", "", [⟨"w", "42", []⟩, ⟨"x", "3.14", []⟩,
          ⟨"y", "hello", []⟩]⟩]⟩]
      ⟨"meta", "", [⟨"fits", "", [⟨"w", "42", []⟩, ⟨"x", "3.14", []⟩,
        ⟨"y", "hello", []⟩]⟩]⟩
      ⟨"fits", "", [⟨"w", "42", []⟩, ⟨"x", "3.14", []⟩,
        ⟨"y", "hello", []⟩]⟩ "x" "3.14" rfl rfl (by decide)
      (by decide) (by decide) (by decide),
    by decide, by decide, by decide⟩

/-- C5: after `write`, the last box of the destination box list is the
same box the codec's default encode put last (the codestream), the list
grew by exactly one box, and the XML metadata box sits second to last. -/
theorem write_box_order (data : List (List Int))
    (header : List (String × Value)) :
    (write data header).getLast? = (encodeBoxes (np_uint8 data)).getLast? ∧
    (write data header).length = (encodeBoxes (np_uint8 data)).length + 1 ∧
    (write data header)[(write data header).length - 2]? =
      some (generate_jp2_xmlbox header) :=
  ⟨rfl, rfl, rfl⟩

/-- C6: `header_to_xml` yields a root named `fits` whose children are, in
mapping iteration order with no sorting, exactly one leaf per distinct key
(first occurrence wins), named after the key, with text the serialized
value from the mapping accessor — `"1"`/`"0"` for booleans and the default
string conversion otherwise, per `stringifyValue`; the child tags are
duplicate-free and cover exactly the mapping's keys. -/
theorem header_to_xml_spec (header : List (String × Value)) :
    (header_to_xml header).tag = "fits" ∧
    (header_to_xml header).children =
      (firstDedup (header.map Prod.fst)).map
        (fun k => (⟨k, stringifyValue (dget header k), []⟩ : XmlElem)) ∧
    ((header_to_xml header).children.map XmlElem.tag).Nodup ∧
    (∀ k, k ∈ (header_to_xml header).children.map XmlElem.tag ↔
      k ∈ header.map Prod.fst) := by
  have hch := header_to_xml_children header
  have htags : (header_to_xml header).children.map XmlElem.tag =
      firstDedup (header.map Prod.fst) := by
    rw [hch, List.map_map]
    have : (XmlElem.tag ∘ fun k =>
        (⟨k, stringifyValue (dget header k), []⟩ : XmlElem)) = id := by
      funext k; rfl
    rw [this, List.map_id]
  refine ⟨rfl, hch, ?_, ?_⟩
  · rw [htags]; exact firstDedup_nodup _
  · intro k
    rw [htags]
    exact mem_firstDedup _ k

/-- C7: `write` coerces every pixel sample by unsigned 8-bit truncation —
the sample modulo 2^8 ends up in the codestream — and not by clamping: at
sample 300 the stored value is 44 even though clamping to 0..255 would
store 255, and at sample -1 wraparound stores 255. -/
theorem write_pixel_wraparound (data : List (List Int))
    (header : List (String × Value)) :
    decode (write data header) = data.map (List.map (fun x => x % 256)) ∧
    np_uint8 [[300]] = [[44]] ∧
    np_uint8 [[-1]] = [[255]] ∧
    min (300 : Int) 255 = 255 ∧
    (44 : Int) ≠ 255 :=
  ⟨rfl, by decide, by decide, by decide, by decide⟩

/-- C8, counterexample: a container whose parsed header has the comment
text `"7"` — the pre-coercion dictionary does contain the key `"comment"`
— makes `get_header` raise an `AttributeError` instead of returning the
comment value: the all-digit text was coerced to a number first, and
numbers have no `replace` method. -/
theorem comment_numeric_cex :
    dget? (xml_to_dict (header_to_xml [("comment", Value.str "7")]))
        "comment" = some "7" ∧
    get_header (write [[0]] [("comment", Value.str "7")]) =
      .error .attributeError :=
  ⟨by decide, by decide⟩

/-- C8 (amended): for every container whose `fits` fragment carries a
comment text that survives coercion as a string (neither all digits nor a
float literal), `get_header` returns that value with all newline
characters removed; and headers without a `"comment"` key pass the
stripping step unchanged.  (Comment texts that coerce to numbers make
`get_header` raise an `AttributeError` instead, see the counterexample.) -/
theorem comment_newline_stripping :
    (∀ (boxes : List Box) (r fits : XmlElem) (s : String),
      (xmlBoxes boxes).head? = some (.xmlBox r) →
      findChild r "fits" = some fits →
      dget? (xml_to_dict fits) "comment" = some s →
      pyIsDigit s = false → string_is_float s = false →
      ∃ hd, get_header boxes = .ok hd ∧
        dget? hd "comment" = some (Value.str (stripNewlines s))) ∧
    (∀ d : List (String × Value), dget? d "comment" = none →
      commentStep d = .ok d) := by
  constructor
  · intro boxes r fits s hx hf hk h1 h2
    have hstr : dget? ((xml_to_dict fits).map
        (fun kv => (kv.1, coerceValue kv.2))) "comment" =
        some (.str s) := by
      rw [dget?_map_values, hk]
      rw [show Option.map coerceValue (some s) = some (coerceValue s)
        from rfl]
      rw [coerceValue_of_guards h1 h2]
    rw [get_header_eq_of_first_xml hx, getHeaderXml_eq hf,
      commentStep_of_str hstr]
    refine ⟨_, rfl, ?_⟩
    rw [dget?_dset_ne _ (by decide) _]
    exact dget?_dset_self _ _ _
  · intro d h
    exact commentStep_of_none h

/-- C8, witness: the stripping at the comment `"line1\nline2"`, returned
as `"line1line2"`; and an untouched comment-free dictionary. -/
theorem comment_newline_stripping_witness :
    (∃ hd, get_header [Box.xmlBox ⟨"meta", "",
        [⟨"fits", "", [⟨"comment", "line1\nline2", []⟩]⟩]⟩] = .ok hd ∧
      dget? hd "comment" =
        some (Value.str (stripNewlines "line1\nline2"))) ∧
    stripNewlines "line1\nline2" = "line1line2" ∧
    commentStep [("k", Value.int 1)] = .ok [("k", Value.int 1)] :=
  ⟨comment_newline_stripping.1
      [Box.xmlBox ⟨"meta", "",
        [⟨"fits", "", [⟨"comment", "line1\nline2", []⟩]⟩]⟩]
      ⟨"meta", "", [⟨"fits", "", [⟨"comment", "line1\nline2", []⟩]⟩]⟩
      ⟨"fits", "", [⟨"comment", "line1\nline2", []⟩]⟩ "line1\nline2"
      rfl rfl (by decide) (by decide) (by decide),
    by decide,
    comment_newline_stripping.2 [("k", Value.int 1)] (by decide)⟩

/-- C9: the header `get_header` returns always carries a boolean key
`"helioviewer"`, true exactly when the XML document's root has a direct
child element (a sibling of `fits`) named `helioviewer` — a presence-only
signal ignoring the element's content. -/
theorem helioviewer_marker (boxes : List Box) (r fits : XmlElem)
    (hx : (xmlBoxes boxes).head? = some (.xmlBox r))
    (hf : findChild r "fits" = some fits)
    (hcs : commentSafe (xml_to_dict fits) = true) :
    ∃ hd, get_header boxes = .ok hd ∧
      dget? hd "helioviewer" =
        some (Value.bool
          (r.children.any (fun c => c.tag == "helioviewer"))) ∧
      (r.children.any (fun c => c.tag == "helioviewer") = true ↔
        ∃ c ∈ r.children, c.tag = "helioviewer") := by
  obtain ⟨d2, hstep, -⟩ := commentStep_safe hcs
  rw [get_header_eq_of_first_xml hx, getHeaderXml_eq hf, hstep]
  refine ⟨_, rfl, ?_, ?_⟩
  · rw [dget?_dset_self]
    have : (findChild r "helioviewer").isSome =
        r.children.any (fun c => c.tag == "helioviewer") :=
      find?_isSome_eq_any r.children _
    rw [this]
  · rw [List.any_eq_true]
    constructor
    · rintro ⟨c, hc, hbeq⟩
      exact ⟨c, hc, by simpa using hbeq⟩
    · rintro ⟨c, hc, htag⟩
      exact ⟨c, hc, by simpa using htag⟩

/-- C9, witness: the marker is true for a container with a `helioviewer`
sibling and false for one without. -/
theorem helioviewer_marker_witness :
    (∃ hd, get_header [Box.xmlBox ⟨"meta", "",
        [⟨"fits", "", [⟨"k", "v", []⟩]⟩, ⟨"helioviewer", "", []⟩]⟩] =
          .ok hd ∧
      dget? hd "helioviewer" =
        some (Value.bool
          (([⟨"fits", "", [⟨"k", "v", []⟩]⟩,
            (⟨"helioviewer", "", []⟩ : XmlElem)] : List XmlElem).any
              (fun c => c.tag == "helioviewer"))) ∧
      (([⟨"fits", "", [⟨"k", "v", []⟩]⟩,
        (⟨"helioviewer", "", []⟩ : XmlElem)] : List XmlElem).any
          (fun c => c.tag == "helioviewer") = true ↔
        ∃ c ∈ ([⟨"fits", "", [⟨"k", "v", []⟩]⟩,
          (⟨"helioviewer", "", []⟩ : XmlElem)] : List XmlElem),
            c.tag = "helioviewer")) ∧
    get_header [Box.xmlBox ⟨"meta", "",
        [⟨"fits", "", [⟨"k", "v", []⟩]⟩, ⟨"helioviewer", "", []⟩]⟩] =
      .ok [("k", Value.str "v"), ("helioviewer", Value.bool true)] ∧
    get_header [Box.xmlBox ⟨"meta", "", [⟨"fits", "", [⟨"k", "v", []⟩]⟩]⟩] =
      .ok [("k", Value.str "v"), ("helioviewer", Value.bool false)] :=
  ⟨helioviewer_marker
      [Box.xmlBox ⟨"meta", "",
        [⟨"fits", "", [⟨"k", "v", []⟩]⟩, ⟨"helioviewer", "", []⟩]⟩]
      ⟨"meta", "", [⟨"fits", "", [⟨"k", "v", []⟩]⟩,
        ⟨"helioviewer", "", []⟩]⟩
      ⟨"fits", "", [⟨"k", "v", []⟩]⟩ rfl rfl (by decide),
    by decide, by decide⟩

/-- C10: the comment newline-stripping runs on the already type-coerced
value, so a comment text that is all digits or a float literal has become
a number by then and `get_header` raises an `AttributeError` from the
`replace` call; when the comment text is neither (or no comment exists),
the step is safe and `get_header` returns a header. -/
theorem comment_coercion_edge :
    (∀ (boxes : List Box) (r fits : XmlElem) (s : String),
      (xmlBoxes boxes).head? = some (.xmlBox r) →
      findChild r "fits" = some fits →
      dget? (xml_to_dict fits) "comment" = some s →
      (pyIsDigit s = true ∨ string_is_float s = true) →
      get_header boxes = .error .attributeError) ∧
    (∀ (boxes : List Box) (r fits : XmlElem),
      (xmlBoxes boxes).head? = some (.xmlBox r) →
      findChild r "fits" = some fits →
      commentSafe (xml_to_dict fits) = true →
      ∃ hd, get_header boxes = .ok hd) := by
  constructor
  · intro boxes r fits s hx hf hk hnum
    have hval : dget? ((xml_to_dict fits).map
        (fun kv => (kv.1, coerceValue kv.2))) "comment" =
        some (coerceValue s) := by
      rw [dget?_map_values, hk]
      rfl
    rw [get_header_eq_of_first_xml hx, getHeaderXml_eq hf,
      commentStep_of_numeric hval (coerceValue_not_str hnum)]
  · intro boxes r fits hx hf hcs
    obtain ⟨d2, hstep, -⟩ := commentStep_safe hcs
    rw [get_header_eq_of_first_xml hx, getHeaderXml_eq hf, hstep]
    exact ⟨_, rfl⟩

/-- C10, witness: the failure at the all-digit comment `"42"` and the
safety at the non-numeric comment `"foo"`. -/
theorem comment_coercion_edge_witness :
    get_header [Box.xmlBox ⟨"meta", "",
        [⟨"fits", "", [⟨"comment", "42", []⟩]⟩]⟩] =
      .error .attributeError ∧
    ∃ hd, get_header [Box.xmlBox ⟨"meta", "",
        [⟨"fits", "", [⟨"comment", "foo", []⟩]⟩]⟩] = .ok hd :=
  ⟨comment_coercion_edge.1
      [Box.xmlBox ⟨"meta", "", [⟨"fits", "", [⟨"comment", "42", []⟩]⟩]⟩]
      ⟨"meta", "", [⟨"fits", "", [⟨"comment", "42", []⟩]⟩]⟩
      ⟨"fits", "", [⟨"comment", "42", []⟩]⟩ "42" rfl rfl (by decide)
      (Or.inl (by decide)),
    comment_coercion_edge.2
      [Box.xmlBox ⟨"meta", "", [⟨"fits", "", [⟨"comment", "foo", []⟩]⟩]⟩]
      ⟨"meta", "", [⟨"fits", "", [⟨"comment", "foo", []⟩]⟩]⟩
      ⟨"fits", "", [⟨"comment", "foo", []⟩]⟩ rfl rfl (by decide)⟩
